import Mathlib

/-
Verification of the wasm_exec host-import bridge of this repository
(wasm_exec/wasm_exec.go) together with spec-modelled views of the parts
of the runtime the bridge calls into (the api.Memory linear memory and
the two execution engines, which are not part of the sources here).

Conventions of the embedding:
  - Go machine integers become Nat with explicit `% 2^32` / `% 2^64`
    where Go truncates.
  - A Go panic inside a host function becomes an error value (`Except`)
    or a dedicated outcome constructor; a Go nil-pointer dereference
    becomes its own outcome constructor because it is a process fault,
    not a recoverable error.
  - Mutation of guest memory becomes explicit state passing: a function
    that mutates memory returns the new memory.
-/

namespace WasmExec

/-! ## Linear memory

Modelled from the spec: the api.Memory implementation (the runtime
linear memory) is not under src/; only its callers in
wasm_exec/wasm_exec.go are.  Section 4.2 of the spec fixes its contract:
"Every accessor validates `offset + length` does not overflow and does
not exceed current size *before* touching the buffer; a violation yields
a trap".  Offsets and lengths are Go uint32 values and the comparison is
performed without 32-bit truncation (so modelling it over Nat, where
`offset + length` is exact, is faithful: the spec overflow case can
never produce a false in-bounds verdict here). -/

structure Mem where
  size : Nat
  data : Nat → Nat

/-- Bytes `data offset, data (offset+1), ...` of a memory, `count` of them. -/
def memBytes (m : Mem) : Nat → Nat → List Nat
  | _, 0 => []
  | offset, count + 1 => m.data offset :: memBytes m (offset + 1) count

/-- Modelled from the spec: `read(offset, length) -> bytes | OutOfBounds`
with the bound checked before the buffer is touched. -/
def memRead (m : Mem) (offset byteCount : Nat) : Option (List Nat) :=
  if offset + byteCount ≤ m.size then some (memBytes m offset byteCount) else none

/-- Modelled from the spec: `write(offset, bytes) -> () | OutOfBounds`;
the bound is checked before the buffer is touched, so a failing write
produces no new buffer at all (no partial writes). -/
def memWrite (m : Mem) (offset : Nat) (bs : List Nat) : Option Mem :=
  if offset + bs.length ≤ m.size then
    some ⟨m.size,
      fun i => if offset ≤ i ∧ i < offset + bs.length then bs.getD (i - offset) 0 else m.data i⟩
  else none

/-- Little-endian byte list of the low `n` bytes of `v`. -/
def leBytes : Nat → Nat → List Nat
  | 0, _ => []
  | n + 1, v => v % 256 :: leBytes n (v / 256)

/-- Little-endian decoding of a byte list. -/
def leDecode : List Nat → Nat
  | [] => 0
  | b :: bs => b % 256 + 256 * leDecode bs

/-- Modelled from the spec: typed little-endian accessor `readU32`. -/
def memReadUint32Le (m : Mem) (offset : Nat) : Option Nat :=
  (memRead m offset 4).map leDecode

/-- Modelled from the spec: typed little-endian accessor `readU64`. -/
def memReadUint64Le (m : Mem) (offset : Nat) : Option Nat :=
  (memRead m offset 8).map leDecode

/-- Modelled from the spec: typed little-endian accessor `writeU32`. -/
def memWriteUint32Le (m : Mem) (offset v : Nat) : Option Mem :=
  memWrite m offset (leBytes 4 v)

/-- Modelled from the spec: typed little-endian accessor `writeU64`. -/
def memWriteUint64Le (m : Mem) (offset v : Nat) : Option Mem :=
  memWrite m offset (leBytes 8 v)

/-! ### Basic lemmas about the memory model -/

theorem leBytes_length (n v : Nat) : (leBytes n v).length = n := by
  induction n generalizing v with
  | zero => rfl
  | succ k ih => simp [leBytes, ih]

theorem leDecode_leBytes (n v : Nat) : leDecode (leBytes n v) = v % 256 ^ n := by
  induction n generalizing v with
  | zero => simp [leBytes, leDecode, Nat.mod_one]
  | succ k ih =>
      have h : (256 : Nat) ^ (k + 1) = 256 * 256 ^ k := by ring
      simp [leBytes, leDecode, ih, h, Nat.mod_mul, Nat.mod_mod_of_dvd]

theorem memBytes_length (m : Mem) (offset count : Nat) :
    (memBytes m offset count).length = count := by
  induction count generalizing offset with
  | zero => rfl
  | succ k ih => simp [memBytes, ih]

theorem memBytes_eq_of_data (m : Mem) (bs : List Nat) (offset : Nat)
    (h : ∀ k, k < bs.length → m.data (offset + k) = bs.getD k 0) :
    memBytes m offset bs.length = bs := by
  induction bs generalizing offset with
  | nil => rfl
  | cons b rest ih =>
      have h0 := h 0 (by simp)
      simp at h0
      simp only [List.length_cons, memBytes, h0]
      have : memBytes m (offset + 1) rest.length = rest := by
        apply ih
        intro k hk
        have := h (k + 1) (by simpa using Nat.succ_lt_succ hk)
        simpa [Nat.add_assoc, Nat.add_comm 1 k] using this
      simp [this]

theorem memWrite_eq_some (m : Mem) (offset : Nat) (bs : List Nat)
    (h : offset + bs.length ≤ m.size) :
    memWrite m offset bs =
      some ⟨m.size,
        fun i => if offset ≤ i ∧ i < offset + bs.length then bs.getD (i - offset) 0
                 else m.data i⟩ := by
  simp [memWrite, h]

theorem memWrite_size (m m' : Mem) (offset : Nat) (bs : List Nat)
    (h : memWrite m offset bs = some m') : m'.size = m.size := by
  unfold memWrite at h
  by_cases hb : offset + bs.length ≤ m.size
  · simp [hb] at h
    subst h
    rfl
  · simp [hb] at h

theorem memWrite_data (m m' : Mem) (offset : Nat) (bs : List Nat)
    (h : memWrite m offset bs = some m') (i : Nat) :
    m'.data i = if offset ≤ i ∧ i < offset + bs.length then bs.getD (i - offset) 0
                else m.data i := by
  unfold memWrite at h
  by_cases hb : offset + bs.length ≤ m.size
  · simp [hb] at h
    subst h
    simp [List.getD]
  · simp [hb] at h

theorem memBytes_congr (m m' : Mem) (offset count : Nat)
    (h : ∀ k, k < count → m'.data (offset + k) = m.data (offset + k)) :
    memBytes m' offset count = memBytes m offset count := by
  induction count generalizing offset with
  | zero => rfl
  | succ k ih =>
      have h0 := h 0 (by omega)
      simp only [memBytes]
      rw [show offset + 0 = offset by omega] at h0
      rw [h0]
      have : memBytes m' (offset + 1) k = memBytes m (offset + 1) k := by
        apply ih
        intro j hj
        have := h (j + 1) (by omega)
        rw [show offset + (j + 1) = offset + 1 + j by omega] at this
        exact this
      rw [this]

theorem memBytes_of_write_same (m m' : Mem) (offset : Nat) (bs : List Nat)
    (h : memWrite m offset bs = some m') :
    memBytes m' offset bs.length = bs := by
  apply memBytes_eq_of_data
  intro k hk
  rw [memWrite_data m m' offset bs h (offset + k)]
  have : offset ≤ offset + k ∧ offset + k < offset + bs.length := by omega
  simp [this]

theorem memBytes_of_write_outside (m m' : Mem) (offset : Nat) (bs : List Nat)
    (h : memWrite m offset bs = some m') (offset2 count : Nat)
    (hd : offset2 + count ≤ offset ∨ offset + bs.length ≤ offset2) :
    memBytes m' offset2 count = memBytes m offset2 count := by
  apply memBytes_congr
  intro k hk
  rw [memWrite_data m m' offset bs h (offset2 + k)]
  have : ¬(offset ≤ offset2 + k ∧ offset2 + k < offset + bs.length) := by omega
  simp [this]

/-! ## Panicking accessors of wasm_exec.go

These embed requireRead, requireReadUint32Le, requireReadUint64Le,
requireWriteUint64Le and requireWriteUint32Le from wasm_exec/wasm_exec.go:
each calls the corresponding api.Memory accessor and panics when it
reports failure.  A Go panic becomes an `Except.error` carrying the
message text of the `fmt.Errorf`. -/

def requireRead (m : Mem) (fieldName : String) (offset byteCount : Nat) :
    Except String (List Nat) :=
  match memRead m offset byteCount with
  | some buf => .ok buf
  | none => .error ("Memory.Read out of range of memory size reading " ++ fieldName)

def requireReadUint32Le (m : Mem) (fieldName : String) (offset : Nat) :
    Except String Nat :=
  match memReadUint32Le m offset with
  | some result => .ok result
  | none => .error ("Memory.ReadUint64Le out of range of memory size reading " ++ fieldName)

def requireReadUint64Le (m : Mem) (fieldName : String) (offset : Nat) :
    Except String Nat :=
  match memReadUint64Le m offset with
  | some result => .ok result
  | none => .error ("Memory.ReadUint64Le out of range of memory size reading " ++ fieldName)

def requireWriteUint64Le (m : Mem) (fieldName : String) (offset val : Nat) :
    Except String Mem :=
  match memWriteUint64Le m offset val with
  | some m' => .ok m'
  | none => .error ("Memory.WriteUint64Le out of range of memory size writing " ++ fieldName)

def requireWriteUint32Le (m : Mem) (fieldName : String) (offset val : Nat) :
    Except String Mem :=
  match memWriteUint32Le m offset val with
  | some m' => .ok m'
  | none => .error ("Memory.WriteUint32Le out of range of memory size writing " ++ fieldName)

/-- Memory as the Go caller observes it after requireWriteUint64Le: on
success the freshly written buffer, on panic the untouched one (the
panic unwinds before any byte of the buffer is written, per the §4.2
contract that the bound is validated before touching the buffer). -/
def memAfterRequireWriteUint64Le (m : Mem) (fieldName : String) (offset val : Nat) : Mem :=
  match requireWriteUint64Le m fieldName offset val with
  | .ok m' => m'
  | .error _ => m

/-! ## The exit latch (jsWasm.closed)

jsWasm holds `closed *uint64`.  The pointer is modelled as `Option Nat`:
`none` is the Go nil pointer, `some c` a cell holding the 64-bit word
`c`.  wasm_exec.go line 60 builds the instance state as `&jsWasm{}`,
which leaves the pointer nil; the atomic CompareAndSwapUint64 /
LoadUint64 calls dereference it, and dereferencing nil panics with a
runtime fault.  That fault is a distinct outcome (`none` result),
separate from the message-carrying panics of the accessors. -/

structure LatchState where
  closed : Option Nat
  closeCalls : List Nat
deriving DecidableEq

/-- State of the jsWasm instance built at wasm_exec.go line 60
(`g := &jsWasm\x7b\x7d`): the closed pointer is the nil pointer and no
CloseWithExitCode call has happened. -/
def newJsWasm : LatchState := ⟨none, []⟩

/-- Embeds jsWasm.wasmExit (wasm_exec.go lines 104-112): pack
`closed = 1 + code<<32`, CompareAndSwapUint64 the cell from 0 to it, and
on success call mod.CloseWithExitCode(ctx, code); on CAS failure return
without any effect.  `closeCalls` records the CloseWithExitCode calls in
order.  Result `none` is the nil-pointer dereference panic of the CAS
when the closed pointer was never allocated. -/
def wasmExit (st : LatchState) (code : Nat) : Option LatchState :=
  match st.closed with
  | none => none
  | some c =>
      if c = 0 then some ⟨some ((1 + code * 2 ^ 32) % 2 ^ 64), st.closeCalls ++ [code]⟩
      else some st

/-- Runs a sequence of wasmExit calls, stopping at a nil-pointer panic. -/
def runExits (st : LatchState) : List Nat → Option LatchState
  | [] => some st
  | c :: cs =>
      match wasmExit st c with
      | none => none
      | some st' => runExits st' cs

/-- Error value of sys.NewExitError: the exit code it carries (the
module name argument is unconstrained context and is omitted). -/
structure ExitError where
  exitCode : Nat
deriving DecidableEq

/-- Embeds jsWasm.failIfClosed (wasm_exec.go lines 280-285): LoadUint64
the cell; if nonzero, return sys.NewExitError with the high 32 bits as
the code.  Outer `none` is the nil-pointer dereference panic of
LoadUint64 on the never-allocated pointer; `some none` means no error;
`some (some e)` is the returned ExitError. -/
def failIfClosed (st : LatchState) : Option (Option ExitError) :=
  match st.closed with
  | none => none
  | some c =>
      if c ≠ 0 then some (some ⟨c / 2 ^ 32 % 2 ^ 32⟩)
      else some none

/-- What the timeout callback of scheduleTimeoutEvent does when it
fires. -/
inductive ResumeOutcome where
  | nilDeref
  | skipped
  | resumed
deriving DecidableEq

/-- Embeds callResume, the closure built inside
jsWasm.scheduleTimeoutEvent (wasm_exec.go lines 209-216): it first calls
failIfClosed and returns without touching the module when that yields an
error; only otherwise does it invoke the exported "resume" function. -/
def callResume (st : LatchState) : ResumeOutcome :=
  match failIfClosed st with
  | none => .nilDeref
  | some (some _) => .skipped
  | some none => .resumed

/-! ## The scheduling table (jsWasm.scheduledTimeouts) and Go timers

scheduleEvent stores `time.AfterFunc(d, f)` timers in the map
`scheduledTimeouts map[uint32]*time.Timer` under the next id.  The Go
time package fixes the relevant timer semantics:
  - a Timer returned by time.AfterFunc has a nil channel C (AfterFunc
    timers deliver by running f, never by sending on C);
  - Timer.Stop returns false exactly when the timer already expired
    (for AfterFunc: the callback was already started) or was stopped;
    Stop does not wait for an in-flight f to complete;
  - a receive from a nil channel blocks forever.
The map is modelled as an association list with distinct keys (a Go map
read on a nil map behaves as on an empty map, so the nil map of the
un-initialised jsWasm reads as `[]`). -/

structure GoTimer where
  hasChannel : Bool
  fired : Bool
deriving DecidableEq

/-- Timer built by time.AfterFunc in scheduleEvent: its C field is nil.
`fired` says whether the callback has already been started. -/
def afterFuncTimer (fired : Bool) : GoTimer := ⟨false, fired⟩

/-- Go Timer.Stop: false iff the timer already expired (its callback
started). -/
def timerStop (t : GoTimer) : Bool := !t.fired

/-- How a `<-t.C` receive behaves: a nil channel (every AfterFunc timer)
blocks the goroutine forever. -/
inductive ClearOutcome where
  | returned
  | blockedForever
deriving DecidableEq

def recvFromTimerChan (t : GoTimer) : ClearOutcome :=
  if t.hasChannel then .returned else .blockedForever

/-- Embeds jsWasm.removeEvent (wasm_exec.go lines 267-277): look the id
up in scheduledTimeouts; when present, delete it and return the timer,
otherwise return nil and leave the table as it is. -/
def removeEvent (table : List (Nat × GoTimer)) (id : Nat) :
    Option GoTimer × List (Nat × GoTimer) :=
  match table.lookup id with
  | some t => (some t, table.filter (fun p => p.1 != id))
  | none => (none, table)

/-- Embeds jsWasm.clearTimeoutEvent (wasm_exec.go lines 232-238): call
removeEvent; when it returned a timer, call t.Stop() and, when Stop
reports the timer already expired, receive from t.C. -/
def clearTimeoutEvent (table : List (Nat × GoTimer)) (id : Nat) :
    ClearOutcome × List (Nat × GoTimer) :=
  match removeEvent table id with
  | (none, table') => (.returned, table')
  | (some t, table') =>
      (if timerStop t then .returned else recvFromTimerChan t, table')

/-! ## Stack-pointer convention host functions

Each "go" import receives one stack pointer sp and reads parameters /
writes results through the panicking accessors at sp+8, sp+16, sp+24.
The system-call collaborator values (clock readings, the random source,
the stdout/stderr writers) are passed in as explicit arguments. -/

/-- Embeds jsWasm._walltime (wasm_exec.go lines 175-179): obtain
(sec, nsec) from the system-call collaborator, write sec as a
little-endian uint64 at sp+8 and nsec as a little-endian uint32 at
sp+16.  Returns the resulting memory, or the panic message. -/
def _walltime (m : Mem) (sp : Nat) (sec nsec : Nat) : Except String Mem := do
  let m1 ← requireWriteUint64Le m "sec" (sp + 8) sec
  requireWriteUint32Le m1 "nsec" (sp + 16) nsec

/-- Embeds jsWasm._wasmExit parameter sourcing (wasm_exec.go lines
96-99): the exit code is read as a little-endian uint32 at sp+8. -/
def _wasmExitCode (m : Mem) (sp : Nat) : Except String Nat :=
  requireReadUint32Le m "code" (sp + 8)

/-- Output collaborators bound to the instance: the bytes written so
far to stdout and stderr, and an optional error each writer is set to
report (modelling a failing io.Writer collaborator). -/
structure Streams where
  stdout : List Nat
  stderr : List Nat
deriving DecidableEq

/-- Embeds jsWasm.wasmWrite (wasm_exec.go lines 127-143): pick the
writer off fd (1 = stdout, 2 = stderr, anything else panics), read the
n source bytes at offset uint32(p) through requireRead, and hand them
to the writer, panicking when the writer errors.  `stdoutErr` /
`stderrErr` model the io.Writer collaborator failing. -/
def wasmWrite (stdoutErr stderrErr : Option String) (st : Streams) (m : Mem)
    (fd p n : Nat) : Except String Streams :=
  if fd = 1 then
    match requireRead m "p" (p % 2 ^ 32) n with
    | .error e => .error e
    | .ok bs =>
        match stdoutErr with
        | some e => .error ("error writing p: " ++ e)
        | none => .ok ⟨st.stdout ++ bs, st.stderr⟩
  else if fd = 2 then
    match requireRead m "p" (p % 2 ^ 32) n with
    | .error e => .error e
    | .ok bs =>
        match stderrErr with
        | some e => .error ("error writing p: " ++ e)
        | none => .ok ⟨st.stdout, st.stderr ++ bs⟩
  else .error "unexpected fd"

/-- Embeds jsWasm._wasmWrite (wasm_exec.go lines 116-121): the logical
parameters fd, p, n are read at sp+8, sp+16, sp+24 (8-byte strides, n
as a uint32), then wasmWrite runs on them. -/
def _wasmWrite (stdoutErr stderrErr : Option String) (st : Streams) (m : Mem)
    (sp : Nat) : Except String Streams := do
  let fd ← requireReadUint64Le m "fd" (sp + 8)
  let p ← requireReadUint64Le m "p" (sp + 16)
  let n ← requireReadUint32Le m "n" (sp + 24)
  wasmWrite stdoutErr stderrErr st m fd p n

/-- Embeds jsWasm.getRandomData (wasm_exec.go lines 253-263): slice the
guest buffer [buf, buf+bufLen) through requireRead, let the random
source collaborator fill it (io.Reader semantics: it writes the bytes
it produced into the slice, which aliases guest memory, and reports
(n, err)), then panic when err is non-nil or when fewer than bufLen
bytes were produced.  `srcBytes` are the bytes the source produced on
this call (its Read return value n is srcBytes.length) and `srcErr` its
error.  On success the returned memory holds exactly the produced
bytes at [buf, buf+bufLen). -/
def getRandomData (srcBytes : List Nat) (srcErr : Option String) (m : Mem)
    (buf bufLen : Nat) : Except String Mem :=
  match memRead m buf bufLen with
  | none => .error "Memory.Read out of range of memory size reading r"
  | some _ =>
      let filled := (memWrite m buf (srcBytes.take bufLen)).getD m
      match srcErr with
      | some e => .error ("RandSource.Read failed: " ++ e)
      | none =>
          if srcBytes.length ≠ bufLen then .error "RandSource.Read read too few bytes"
          else .ok filled

/-! ## Execution engines

Modelled from the spec: the two execution engines
(internal/engine/interpreter and internal/engine/compiler) are not under
src/; only their conformance harness
(internal/integration_test/spectest/v2/spec_test.go) is.  Sections 4.1
and 4.3 of the spec fix their contract, and the model below covers the
integer, memory and control fragment of it:
  - wrapping uint32 arithmetic (add, sub, mul);
  - trapping unsigned division by zero, and trapping signed division
    both on zero and on the minimum-int32-divided-by-minus-one overflow;
  - memory loads and stores routed through the same bounds-checked
    linear-memory accessors as the host functions (section 4.2), with an
    out-of-bounds trap;
  - structured control flow: blocks, loops, conditional and
    unconditional branches (the Interpreter maintains the control-flow
    stack by recursion; branch targets follow the wasm rule: a branch to
    a block label exits the block, a branch to a loop label restarts the
    loop, and the operand stack is cut back to the height at the label);
  - the unreachable instruction, trapping;
  - validation (section 4.1): an abstract-interpretation pass tracking
    the exact operand-stack height at every program point, rejecting
    depth underflow, out-of-range branch labels and (conservatively)
    dead code after a branch.
The Interpreter walks the validated structured instruction tree with an
explicit value stack and a fuel bound (no validated program is given to
it unchecked, but it still checks every pop).  The Compiler translates
the whole body ahead of any call into flat native code with resolved
absolute jump targets and compile-time-computed stack cuts, and the
emitted code carries the identical trap conditions as explicit checks
while omitting the underflow checks (native code relies on validation,
so the equivalence below genuinely needs the validation hypothesis).
Floating-point instructions are outside this embedding: IEEE-754 NaN
bit-pattern semantics has no executable kernel-level model here, and
function calls (direct or indirect) would need a whole-module model;
the equivalence claim is settled for the fragment above. -/

inductive Instr where
  | iconst (n : Nat)
  | iadd
  | isub
  | imul
  | idivU
  | idivS
  | iload
  | istore
  | iblock (body : List Instr)
  | iloop (body : List Instr)
  | ibr (l : Nat)
  | ibrIf (l : Nat)
  | iunreachable

inductive Trap where
  | divZero
  | intOverflow
  | oobAccess
  | unreachableHit
  | stackUnderflow
deriving DecidableEq

/-- Native code emitted by the Compiler: flat straight-line operations
with absolute jump targets resolved at compile time.  ndropN cuts the
operand stack by a compile-time-computed count (the label-height
adjustment of a branch); njz pops the condition and jumps to its target
when it is zero (the fall-through-skip of a conditional branch).  The
arithmetic, division-trap, bounds-check and unreachable-trap conditions
are explicit in the emitted operations; underflow is not checked
(native code trusts validation). -/
inductive NOp where
  | npush (n : Nat)
  | nadd
  | nsub
  | nmul
  | ndivU
  | ndivS
  | nload
  | nstore
  | ndropN (k : Nat)
  | njmp (target : Nat)
  | njz (target : Nat)
  | ntrap (t : Trap)

/-! Emitted-code size of one instruction / of a sequence. -/
mutual
def sizeI : Instr → Nat
  | .iblock body => sizeSeq body
  | .iloop body => sizeSeq body
  | .ibr _ => 2
  | .ibrIf _ => 3
  | _ => 1
def sizeSeq : List Instr → Nat
  | [] => 0
  | i :: rest => sizeI i + sizeSeq rest
end

/-- Operand-stack height after one non-escaping instruction (mirrors
the validation pass; used by the Compiler to compute stack cuts). -/
def heightAfter (h : Nat) : Instr → Nat
  | .iconst _ => h + 1
  | .iadd | .isub | .imul | .idivU | .idivS => h - 1
  | .istore => h - 2
  | .ibrIf _ => h - 1
  | _ => h

/-! The Compiler: translate the validated structured body, ahead of any
call, into flat native code.  `pos` is the absolute position the emitted
fragment will occupy, `h` the operand-stack height at entry, and `L` the
enclosing labels as (absolute jump target, stack height at the label),
innermost first: a block label targets the end of the block, a loop
label targets the start of the loop.  A branch is emitted as a stack cut
to the label height followed by a jump; a conditional branch first pops
the condition and skips the branch when it is zero.  (The out-of-range
label fall-back arms keep the op-count of an unvalidatable instruction
fixed; validated code never reaches them.) -/
mutual
def compileInstrC (pos h : Nat) (L : List (Nat × Nat)) : Instr → List NOp
  | .iconst n => [.npush (n % 2 ^ 32)]
  | .iadd => [.nadd]
  | .isub => [.nsub]
  | .imul => [.nmul]
  | .idivU => [.ndivU]
  | .idivS => [.ndivS]
  | .iload => [.nload]
  | .istore => [.nstore]
  | .iblock body => compileSeq pos h ((pos + sizeSeq body, h) :: L) body
  | .iloop body => compileSeq pos h ((pos, h) :: L) body
  | .ibr l =>
      match L[l]? with
      | some tl => [.ndropN (h - tl.2), .njmp tl.1]
      | none => [.ntrap .unreachableHit, .ntrap .unreachableHit]
  | .ibrIf l =>
      match L[l]? with
      | some tl => [.njz (pos + 3), .ndropN (h - 1 - tl.2), .njmp tl.1]
      | none => [.ntrap .unreachableHit, .ntrap .unreachableHit, .ntrap .unreachableHit]
  | .iunreachable => [.ntrap .unreachableHit]
def compileSeq (pos h : Nat) (L : List (Nat × Nat)) : List Instr → List NOp
  | [] => []
  | i :: rest =>
      compileInstrC pos h L i ++ compileSeq (pos + sizeI i) (heightAfter h i) L rest
end

/-- Modelled from the spec: the validation pass (section 4.1) as an
abstract interpretation tracking the exact operand-stack height.  `L`
holds the stack heights of the enclosing labels, innermost first.  A
result of `some (some h2)` means the sequence can fall through at
height h2; `some none` means it always escapes (ends in a branch or
unreachable); `none` rejects.  Dead code after an escaping instruction
is rejected (a conservative restriction of the wasm rules: everything
accepted is validated). -/
def validateSeq (L : List Nat) (h : Nat) : List Instr → Option (Option Nat)
  | [] => some (some h)
  | i :: rest =>
      match i with
      | .iconst _ => validateSeq L (h + 1) rest
      | .iadd | .isub | .imul | .idivU | .idivS =>
          if 2 ≤ h then validateSeq L (h - 1) rest else none
      | .iload => if 1 ≤ h then validateSeq L h rest else none
      | .istore => if 2 ≤ h then validateSeq L (h - 2) rest else none
      | .iblock body =>
          match validateSeq (h :: L) h body with
          | none => none
          | some none => validateSeq L h rest
          | some (some h2) => if h2 = h then validateSeq L h rest else none
      | .iloop body =>
          match validateSeq (h :: L) h body with
          | none => none
          | some none => validateSeq L h rest
          | some (some h2) => if h2 = h then validateSeq L h rest else none
      | .ibr l =>
          match L[l]?, rest with
          | some hl, [] => if hl ≤ h then some none else none
          | _, _ => none
      | .ibrIf l =>
          if 1 ≤ h then
            match L[l]? with
            | some hl => if hl ≤ h - 1 then validateSeq L (h - 1) rest else none
            | none => none
          else none
      | .iunreachable =>
          match rest with
          | [] => some none
          | _ => none

mutual
theorem compileInstrC_length (pos h : Nat) (L : List (Nat × Nat)) (i : Instr) :
    (compileInstrC pos h L i).length = sizeI i :=
  match i with
  | .iconst _ => by simp [compileInstrC, sizeI]
  | .iadd => by simp [compileInstrC, sizeI]
  | .isub => by simp [compileInstrC, sizeI]
  | .imul => by simp [compileInstrC, sizeI]
  | .idivU => by simp [compileInstrC, sizeI]
  | .idivS => by simp [compileInstrC, sizeI]
  | .iload => by simp [compileInstrC, sizeI]
  | .istore => by simp [compileInstrC, sizeI]
  | .iblock body => by
      simp [compileInstrC, sizeI, compileSeq_length pos h ((pos + sizeSeq body, h) :: L) body]
  | .iloop body => by
      simp [compileInstrC, sizeI, compileSeq_length pos h ((pos, h) :: L) body]
  | .ibr l => by
      cases hL : L[l]? <;> simp [compileInstrC, sizeI, hL]
  | .ibrIf l => by
      cases hL : L[l]? <;> simp [compileInstrC, sizeI, hL]
  | .iunreachable => by simp [compileInstrC, sizeI]
theorem compileSeq_length (pos h : Nat) (L : List (Nat × Nat)) (seq : List Instr) :
    (compileSeq pos h L seq).length = sizeSeq seq :=
  match seq with
  | [] => by simp [compileSeq, sizeSeq]
  | i :: rest => by
      simp [compileSeq, sizeSeq, compileInstrC_length pos h L i,
        compileSeq_length (pos + sizeI i) (heightAfter h i) L rest]
end

theorem validateSeq_unreachable (L : List Nat) (h : Nat) (rest : List Instr)
    (res : Option Nat) (hv : validateSeq L h (.iunreachable :: rest) = some res) :
    rest = [] := by
  cases rest with
  | nil => rfl
  | cons r rs =>
      unfold validateSeq at hv
      exact absurd (show (none : Option (Option Nat)) = some res from hv) (by simp)

/-- C1: evaluation at the failing input.  On the instance state built at
wasm_exec.go line 60 the closed pointer is nil, so the very first wasmExit
call of any exit sequence dereferences nil inside
atomic.CompareAndSwapUint64 and panics: no latch value is ever stored and
CloseWithExitCode is never reached, contrary to the claim that the first
call sets the latch and closes the module with its code. -/
theorem wasmExit_first_call_nil_deref :
    wasmExit newJsWasm 0 = none ∧ runExits newJsWasm [0, 7] = none ∧
      newJsWasm.closeCalls = [] := by decide

/-- C9: evaluation at the failing input.  Calling exit with code 0 on the
instance state built at wasm_exec.go line 60 does not store the packed word
1 + 0<<32 = 1: the nil closed pointer makes the CAS panic, and failIfClosed
likewise panics instead of reporting an exit failure. -/
theorem wasmExit_zero_nil_deref :
    wasmExit newJsWasm 0 = none ∧ failIfClosed newJsWasm = none := by decide

/-- Supporting fact: the packing arithmetic of wasmExit and the unpacking in
failIfClosed are mutually consistent whenever the closed cell exists: on an
allocated, unset cell an exit with any uint32 code (0 included) stores the
nonzero word 1 + code<<32 and failIfClosed then reports exactly that code,
which distinguishes an exited instance from a never-exited one. -/
theorem wasmExit_packs_when_allocated (code : Nat) (h : code < 2 ^ 32) :
    wasmExit ⟨some 0, []⟩ code = some ⟨some (1 + code * 2 ^ 32), [code]⟩ ∧
    1 + code * 2 ^ 32 ≠ 0 ∧
    failIfClosed ⟨some (1 + code * 2 ^ 32), [code]⟩ = some (some ⟨code⟩) := by
  have h32 : (2 : Nat) ^ 32 = 4294967296 := by norm_num
  have h64 : (2 : Nat) ^ 64 = 18446744073709551616 := by norm_num
  have hlt : 1 + code * 2 ^ 32 < 2 ^ 64 := by rw [h32] at h ⊢; rw [h64]; nlinarith
  refine ⟨?_, by omega, ?_⟩
  · have hm : (1 + code * 2 ^ 32) % 2 ^ 64 = 1 + code * 2 ^ 32 := Nat.mod_eq_of_lt hlt
    simp [wasmExit, hm]
    omega
  · have hdiv : (1 + code * 2 ^ 32) / 2 ^ 32 % 2 ^ 32 = code := by
      rw [Nat.add_mul_div_right _ _ (by positivity)]
      rw [Nat.div_eq_of_lt (by norm_num)]
      simpa using Nat.mod_eq_of_lt h
    simp [failIfClosed, hdiv]
    omega

/-- C5: when the exit latch is set at the time a scheduled timeout callback
fires, the callback consults failIfClosed first and returns without invoking
the exported resume function. -/
theorem callResume_skips_when_latched (st : LatchState) (c : Nat)
    (hc : st.closed = some c) (hnz : c ≠ 0) : callResume st = .skipped := by
  simp [callResume, failIfClosed, hc, hnz]

theorem callResume_skips_when_latched_witness :
    callResume ⟨some 1, []⟩ = ResumeOutcome.skipped :=
  callResume_skips_when_latched ⟨some 1, []⟩ 1 rfl (by decide)

/-- C4: evaluation at the failing input.  Cancelling an id whose AfterFunc
timer has already started firing makes clearTimeoutEvent execute a receive
from t.C; time.AfterFunc timers carry a nil channel, so the canceller
blocks forever, not merely until the in-flight firing completes. -/
theorem clearTimeoutEvent_after_fire_blocks_forever :
    (clearTimeoutEvent [(7, afterFuncTimer true)] 7).1 = .blockedForever ∧
    timerStop (afterFuncTimer true) = false ∧
    (afterFuncTimer true).hasChannel = false := by decide

/-- Supporting fact: the cancel-before-fire half of the contract does hold:
cancelling an id whose timer has not yet fired stops the timer and removes
it from the table, so the callback never runs. -/
theorem clearTimeoutEvent_before_fire_cancels :
    clearTimeoutEvent [(7, afterFuncTimer false)] 7 = (.returned, []) ∧
    timerStop (afterFuncTimer false) = true := by decide

theorem lookup_filter_ne (table : List (Nat × GoTimer)) (id : Nat) :
    (table.filter (fun p => p.1 != id)).lookup id = none := by
  induction table with
  | nil => rfl
  | cons hd tl ih =>
      by_cases h : hd.1 = id
      · simp [List.filter_cons, h, ih]
      · have hne : (id == hd.1) = false := by
          rw [beq_eq_false_iff_ne]
          exact fun he => h he.symm
        simp [List.filter_cons, List.lookup, h, ih, bne_iff_ne, hne]

/-- C10: cancelling an id absent from the scheduling table is a no-op:
removeEvent returns nil and leaves the table as it is, clearTimeoutEvent
returns without blocking, and clearing is idempotent on the table for every
id (a second clear of the same id always finds it absent). -/
theorem clearTimeoutEvent_absent_noop_idempotent :
    (∀ table id, table.lookup id = none →
      removeEvent table id = (none, table) ∧
      clearTimeoutEvent table id = (.returned, table)) ∧
    (∀ (table : List (Nat × GoTimer)) (id : Nat),
      clearTimeoutEvent (clearTimeoutEvent table id).2 id =
        (.returned, (clearTimeoutEvent table id).2)) := by
  constructor
  · intro table id h
    refine ⟨by simp [removeEvent, h], by simp [clearTimeoutEvent, removeEvent, h]⟩
  · intro table id
    rcases htab : table.lookup id with _ | t
    · simp [clearTimeoutEvent, removeEvent, htab]
    · simp [clearTimeoutEvent, removeEvent, htab, lookup_filter_ne]

theorem clearTimeoutEvent_absent_noop_idempotent_witness :
    removeEvent [(3, afterFuncTimer false)] 7 = (none, [(3, afterFuncTimer false)]) ∧
    clearTimeoutEvent [(3, afterFuncTimer false)] 7 =
      (.returned, [(3, afterFuncTimer false)]) :=
  clearTimeoutEvent_absent_noop_idempotent.1 [(3, afterFuncTimer false)] 7 (by decide)

/-- C3: when offset + length exceeds the current memory size, the read
accessor and the 64-bit write accessor both fail with the out-of-range
panic, the failed write leaves the buffer completely unmodified, and a
write can only succeed when the bound held, i.e. the check precedes any
touch of the buffer. -/
theorem accessor_oob_fails_buffer_untouched (m : Mem) (offset byteCount v : Nat)
    (hr : m.size < offset + byteCount) (hw : m.size < offset + 8) :
    (∃ e, requireRead m "p" offset byteCount = .error e) ∧
    (∃ e, requireWriteUint64Le m "t" offset v = .error e) ∧
    memAfterRequireWriteUint64Le m "t" offset v = m ∧
    (∀ m', memWrite m offset (leBytes 8 v) = some m' → offset + 8 ≤ m.size) := by
  have h1 : memRead m offset byteCount = none := by
    unfold memRead
    rw [if_neg (by omega : ¬ offset + byteCount ≤ m.size)]
  have h2 : memWriteUint64Le m offset v = none := by
    unfold memWriteUint64Le memWrite
    rw [leBytes_length]
    rw [if_neg (by omega : ¬ offset + 8 ≤ m.size)]
  refine ⟨⟨"Memory.Read out of range of memory size reading " ++ "p", ?_⟩,
    ⟨"Memory.WriteUint64Le out of range of memory size writing " ++ "t", ?_⟩, ?_, ?_⟩
  · simp [requireRead, h1]
  · simp [requireWriteUint64Le, h2]
  · simp [memAfterRequireWriteUint64Le, requireWriteUint64Le, h2]
  · intro m' hm'
    unfold memWrite at hm'
    by_cases hb : offset + (leBytes 8 v).length ≤ m.size
    · rw [leBytes_length] at hb
      exact hb
    · simp [hb] at hm'

theorem accessor_oob_fails_buffer_untouched_witness :
    (∃ e, requireRead ⟨4, fun _ => 0⟩ "p" 2 5 = .error e) ∧
    (∃ e, requireWriteUint64Le ⟨4, fun _ => 0⟩ "t" 2 1 = .error e) ∧
    memAfterRequireWriteUint64Le ⟨4, fun _ => 0⟩ "t" 2 1 = ⟨4, fun _ => 0⟩ ∧
    (∀ m', memWrite ⟨4, fun _ => 0⟩ 2 (leBytes 8 1) = some m' →
      2 + 8 ≤ Mem.size ⟨4, fun _ => 0⟩) :=
  accessor_oob_fails_buffer_untouched ⟨4, fun _ => 0⟩ 2 5 1 (by decide) (by decide)

/-- C7: on an in-bounds source region the host write function appends to
the bound stdout collaborator for fd 1 and to stderr for fd 2 exactly the
n bytes of guest memory starting at uint32(p), in order, leaving the other
stream untouched; any other fd and any writer failure surface as an error,
never as a silent wrong result. -/
theorem wasmWrite_routes_exact_bytes (st : Streams) (m : Mem) (p n : Nat)
    (h : p % 2 ^ 32 + n ≤ m.size) :
    wasmWrite none none st m 1 p n =
      .ok ⟨st.stdout ++ memBytes m (p % 2 ^ 32) n, st.stderr⟩ ∧
    wasmWrite none none st m 2 p n =
      .ok ⟨st.stdout, st.stderr ++ memBytes m (p % 2 ^ 32) n⟩ ∧
    (memBytes m (p % 2 ^ 32) n).length = n ∧
    (∀ fd, fd ≠ 1 → fd ≠ 2 → ∃ e, wasmWrite none none st m fd p n = .error e) ∧
    (∀ e, (∃ e2, wasmWrite (some e) none st m 1 p n = .error e2) ∧
          (∃ e2, wasmWrite none (some e) st m 2 p n = .error e2)) := by
  have hrr : requireRead m "p" (p % 2 ^ 32) n = .ok (memBytes m (p % 2 ^ 32) n) := by
    unfold requireRead memRead
    rw [if_pos h]
  refine ⟨?_, ?_, memBytes_length m (p % 2 ^ 32) n, ?_, ?_⟩
  · unfold wasmWrite
    rw [if_pos rfl, hrr]
  · unfold wasmWrite
    rw [if_neg (by norm_num : ¬ (2 : Nat) = 1), if_pos rfl, hrr]
  · intro fd h1 h2
    refine ⟨"unexpected fd", ?_⟩
    unfold wasmWrite
    rw [if_neg h1, if_neg h2]
  · intro e
    constructor
    · refine ⟨"error writing p: " ++ e, ?_⟩
      unfold wasmWrite
      rw [if_pos rfl, hrr]
    · refine ⟨"error writing p: " ++ e, ?_⟩
      unfold wasmWrite
      rw [if_neg (by norm_num : ¬ (2 : Nat) = 1), if_pos rfl, hrr]

theorem wasmWrite_routes_exact_bytes_witness :
    wasmWrite none none ⟨[9], []⟩ ⟨4, fun i => i⟩ 1 1 3 =
      .ok ⟨[9] ++ memBytes ⟨4, fun i => i⟩ (1 % 2 ^ 32) 3, []⟩ ∧
    wasmWrite none none ⟨[9], []⟩ ⟨4, fun i => i⟩ 2 1 3 =
      .ok ⟨[9], [] ++ memBytes ⟨4, fun i => i⟩ (1 % 2 ^ 32) 3⟩ ∧
    (memBytes ⟨4, fun i => i⟩ (1 % 2 ^ 32) 3).length = 3 ∧
    (∀ fd, fd ≠ 1 → fd ≠ 2 →
      ∃ e, wasmWrite none none ⟨[9], []⟩ ⟨4, fun i => i⟩ fd 1 3 = .error e) ∧
    (∀ e, (∃ e2, wasmWrite (some e) none ⟨[9], []⟩ ⟨4, fun i => i⟩ 1 1 3 = .error e2) ∧
          (∃ e2, wasmWrite none (some e) ⟨[9], []⟩ ⟨4, fun i => i⟩ 2 1 3 = .error e2)) :=
  wasmWrite_routes_exact_bytes ⟨[9], []⟩ ⟨4, fun i => i⟩ 1 3 (by decide)

/-- C8: getRandomData reports a failure whenever the random source errors
or supplies fewer (or more) than bufLen bytes, and only returns success
when the source supplied exactly bufLen bytes, in which case precisely the
bufLen bytes of guest memory starting at buf hold the supplied bytes and
every other byte is untouched. -/
theorem getRandomData_all_or_nothing (bs : List Nat) (e : Option String)
    (m : Mem) (buf bufLen : Nat) :
    ((e ≠ none ∨ bs.length ≠ bufLen) →
      ∃ msg, getRandomData bs e m buf bufLen = .error msg) ∧
    (e = none → bs.length = bufLen → buf + bufLen ≤ m.size →
      ∃ m', getRandomData bs e m buf bufLen = .ok m' ∧
        m'.size = m.size ∧ memBytes m' buf bufLen = bs ∧
        (∀ i, i < buf ∨ buf + bufLen ≤ i → m'.data i = m.data i)) := by
  constructor
  · intro hbad
    unfold getRandomData
    rcases hmr : memRead m buf bufLen with _ | r
    · exact ⟨_, rfl⟩
    · rcases e with _ | msg
      · rcases hbad with hbad | hbad
        · exact absurd rfl hbad
        · refine ⟨"RandSource.Read read too few bytes", ?_⟩
          simp [hbad]
      · exact ⟨"RandSource.Read failed: " ++ msg, rfl⟩
  · intro he hlen hb
    subst he
    have hmr : memRead m buf bufLen = some (memBytes m buf bufLen) := by
      unfold memRead
      rw [if_pos hb]
    have htake : bs.take bufLen = bs := by
      rw [← hlen]
      exact List.take_length bs
    obtain ⟨m', hm'⟩ : ∃ m', memWrite m buf bs = some m' := by
      unfold memWrite
      rw [if_pos (by omega : buf + bs.length ≤ m.size)]
      exact ⟨_, rfl⟩
    refine ⟨m', ?_, memWrite_size m m' buf bs hm', ?_, ?_⟩
    · unfold getRandomData
      rw [hmr]
      simp [htake, hm', hlen]
    · have := memBytes_of_write_same m m' buf bs hm'
      rw [hlen] at this
      exact this
    · intro i hi
      rw [memWrite_data m m' buf bs hm' i]
      rw [if_neg (by omega : ¬ (buf ≤ i ∧ i < buf + bs.length))]

/-- C6: the stack-pointer calling convention.  _walltime writes its results
through the linear-memory accessors at 8-byte strides from sp: sec as a
little-endian uint64 at sp+8 and nsec as a little-endian uint32 at sp+16,
touching no byte outside [sp+8, sp+20); and _wasmWrite reads its logical
parameters fd, p, n from memory at sp+8, sp+16, sp+24 and hands exactly
those values on. -/
theorem walltime_sp_convention (m : Mem) (sp sec nsec : Nat) (h : sp + 20 ≤ m.size) :
    (∃ m2, _walltime m sp sec nsec = .ok m2 ∧
      memReadUint64Le m2 (sp + 8) = some (sec % 2 ^ 64) ∧
      memReadUint32Le m2 (sp + 16) = some (nsec % 2 ^ 32) ∧
      m2.size = m.size ∧
      (∀ i, i < sp + 8 ∨ sp + 20 ≤ i → m2.data i = m.data i)) ∧
    (∀ soe see st fd p n,
      memReadUint64Le m (sp + 8) = some fd →
      memReadUint64Le m (sp + 16) = some p →
      memReadUint32Le m (sp + 24) = some n →
      _wasmWrite soe see st m sp = wasmWrite soe see st m fd p n) := by
  constructor
  · obtain ⟨m1, hm1⟩ : ∃ m1, memWrite m (sp + 8) (leBytes 8 sec) = some m1 := by
      unfold memWrite
      rw [leBytes_length]
      rw [if_pos (by omega : sp + 8 + 8 ≤ m.size)]
      exact ⟨_, rfl⟩
    have hs1 : m1.size = m.size := memWrite_size m m1 (sp + 8) (leBytes 8 sec) hm1
    obtain ⟨m2, hm2⟩ : ∃ m2, memWrite m1 (sp + 16) (leBytes 4 nsec) = some m2 := by
      unfold memWrite
      rw [leBytes_length]
      rw [if_pos (by omega : sp + 16 + 4 ≤ m1.size)]
      exact ⟨_, rfl⟩
    have hs2 : m2.size = m1.size := memWrite_size m1 m2 (sp + 16) (leBytes 4 nsec) hm2
    have hbytes8 : memBytes m2 (sp + 8) 8 = leBytes 8 sec := by
      have houts := memBytes_of_write_outside m1 m2 (sp + 16) (leBytes 4 nsec) hm2
        (sp + 8) 8 (Or.inl (by omega))
      have hsame := memBytes_of_write_same m m1 (sp + 8) (leBytes 8 sec) hm1
      rw [leBytes_length] at hsame
      rw [houts, hsame]
    have hbytes4 : memBytes m2 (sp + 16) 4 = leBytes 4 nsec := by
      have hsame := memBytes_of_write_same m1 m2 (sp + 16) (leBytes 4 nsec) hm2
      rw [leBytes_length] at hsame
      exact hsame
    refine ⟨m2, ?_, ?_, ?_, by omega, ?_⟩
    · unfold _walltime requireWriteUint64Le requireWriteUint32Le memWriteUint64Le
        memWriteUint32Le
      rw [hm1]
      show (match memWrite m1 (sp + 16) (leBytes 4 nsec) with
        | some m' => Except.ok m'
        | none => Except.error
            ("Memory.WriteUint32Le out of range of memory size writing " ++ "nsec")) =
        Except.ok m2
      rw [hm2]
    · unfold memReadUint64Le memRead
      rw [if_pos (by omega : sp + 8 + 8 ≤ m2.size)]
      have hpow : (256 : Nat) ^ 8 = 2 ^ 64 := by norm_num
      simp [hbytes8, leDecode_leBytes, hpow]
    · unfold memReadUint32Le memRead
      rw [if_pos (by omega : sp + 16 + 4 ≤ m2.size)]
      have hpow : (256 : Nat) ^ 4 = 2 ^ 32 := by norm_num
      simp [hbytes4, leDecode_leBytes, hpow]
    · intro i hi
      rw [memWrite_data m1 m2 (sp + 16) (leBytes 4 nsec) hm2 i]
      rw [if_neg (by rw [leBytes_length]; omega :
        ¬ (sp + 16 ≤ i ∧ i < sp + 16 + (leBytes 4 nsec).length))]
      rw [memWrite_data m m1 (sp + 8) (leBytes 8 sec) hm1 i]
      rw [if_neg (by rw [leBytes_length]; omega :
        ¬ (sp + 8 ≤ i ∧ i < sp + 8 + (leBytes 8 sec).length))]
  · intro soe see st fd p n hfd hp hn
    unfold _wasmWrite requireReadUint64Le requireReadUint32Le
    rw [hfd, hp, hn]
    rfl

theorem walltime_sp_convention_witness :
    ∃ m2, _walltime ⟨32, fun _ => 0⟩ 0 5 9 = .ok m2 ∧
      memReadUint64Le m2 (0 + 8) = some (5 % 2 ^ 64) ∧
      memReadUint32Le m2 (0 + 16) = some (9 % 2 ^ 32) ∧
      m2.size = Mem.size ⟨32, fun _ => 0⟩ ∧
      (∀ i, i < 0 + 8 ∨ 0 + 20 ≤ i → m2.data i = Mem.data ⟨32, fun _ => 0⟩ i) :=
  (walltime_sp_convention ⟨32, fun _ => 0⟩ 0 5 9 (by decide)).1

theorem getRandomData_all_or_nothing_witness :
    (∃ msg, getRandomData [3, 4] (some "eof") ⟨4, fun _ => 0⟩ 1 2 = .error msg) ∧
    (∃ m', getRandomData [3, 4] none ⟨4, fun _ => 0⟩ 1 2 = .ok m' ∧
      m'.size = Mem.size ⟨4, fun _ => 0⟩ ∧ memBytes m' 1 2 = [3, 4] ∧
      (∀ i, i < 1 ∨ 1 + 2 ≤ i → m'.data i = Mem.data ⟨4, fun _ => 0⟩ i)) :=
  ⟨(getRandomData_all_or_nothing [3, 4] (some "eof") ⟨4, fun _ => 0⟩ 1 2).1
      (Or.inl (by simp)),
   (getRandomData_all_or_nothing [3, 4] none ⟨4, fun _ => 0⟩ 1 2).2 rfl rfl (by decide)⟩

end WasmExec
